import Mathlib

set_option maxRecDepth 100000

/-!
Shallow embedding of the course-arrangement program (src/排课.py) and
verification of its specification claims.

Modelling conventions:
* Cell text whose *content* the program inspects (the class-membership
  field, which is trimmed and split on delimiters) is modelled as
  `List Char`, which is what a `String` is; `String.toList` is used to
  write literals.  Opaque identifiers (course name, teacher, room,
  hour-type) that the program only compares for equality are modelled
  as `String`.
* A pandas row is a record of `Option`-valued cells; a missing cell
  (`NaN`) is `none`.  `df.dropna(subset=core_cols)` keeps exactly the
  rows whose six core cells are all present.
* The course identifier `f"C{i+1}"` is determined by the number `i+1`;
  we store that number directly (`id : Nat`).
* A PuLP slot label `f"Time_{w}_{d}_{s}"` is determined by the triple
  `(w, d, s)`; we store that triple directly.  The comprehension
  `[.. for w in week_range for d in day_range for s in slot_range]`
  is the lexicographic product of the three ranges.
* A PuLP variable `x[(cid, t)]` (cat=LpInteger, lowBound=0, upBound=1)
  is a key `(cid, t)`; a solver valuation is a function from keys to
  `Nat`, and the 0/1 bound is the `σ v ≤ 1` condition of
  `FeasiblePoint`.
* `raise ValueError` is modelled with `Except.error`; `print`ed
  advisory output is modelled by the boolean/structured values that
  decide it.
-/

/-- Configuration: 学时换算，每时段2学时 (`HOUR_PER_SLOT = 2`). -/
def HOUR_PER_SLOT : Nat := 2

/-- Configuration: `week_range = range(1, 17)` — 16 weeks. -/
def week_range : List Nat := List.range' 1 16

/-- Configuration: `day_range = range(1, 6)` — Monday to Friday. -/
def day_range : List Nat := List.range' 1 5

/-- Configuration: `slot_range = range(1, 7)` — 6 periods per day. -/
def slot_range : List Nat := List.range' 1 6

/-- A time slot, identified by its (week, day, period) triple; the source
labels it `f"Time_{w}_{d}_{s}"`. -/
abbrev Time := Nat × Nat × Nat

/-- The slot universe `TIMES`: the lexicographic product of the week, day
and period ranges, as produced by the triple comprehension in the source. -/
def TIMES : List Time := List.product week_range (List.product day_range slot_range)

/-- Configuration default in the source: teacher-conflict toggle (off). -/
def ENABLE_TEACHER_CONSTRAINT : Bool := false

/-- Configuration default in the source: class-conflict toggle (on). -/
def ENABLE_CLASS_CONSTRAINT : Bool := true

/-- Configuration default in the source: room-conflict toggle (off). -/
def ENABLE_ROOM_CONSTRAINT : Bool := false

/-- A class identifier: the text of one fragment of the 教学班组成 cell. -/
abbrev ClassName := List Char

/-- One spreadsheet row; each core cell may be missing (`NaN` ↦ `none`). -/
structure Row where
  course_name : Option String
  teacher_name : Option String
  class_field : Option (List Char)
  room : Option String
  total_hour : Option Nat
  hour_type : Option String
deriving DecidableEq

/-- The six required column names (`core_cols` in `preprocess_data`). -/
def core_cols : List String :=
  ["课程名称", "教师名称", "教学班组成", "场地类别", "课程总学时", "学时类型"]

/-- Python `str.strip`: drop whitespace from both ends of the character list. -/
def trimChars (s : List Char) : List Char :=
  ((s.dropWhile Char.isWhitespace).reverse.dropWhile Char.isWhitespace).reverse

/-- Python `str.split(sep)` for a one-character separator: split the list at
every occurrence of `sep`, keeping empty fragments. -/
def splitOnChar (sep : Char) : List Char → List (List Char)
  | [] => [[]]
  | c :: cs =>
    let rest := splitOnChar sep cs
    if c = sep then [] :: rest
    else
      match rest with
      | [] => [[c]]
      | r :: rs => (c :: r) :: rs

/-- The class-membership parsing of `preprocess_data` (lines 79–86):
strip the cell, split on `、` if present, else on `,` if present, else
keep the whole cell; fragments are stripped and empty ones discarded. -/
def splitClasses (raw : List Char) : List ClassName :=
  let class_str := trimChars raw
  if class_str.contains '、' then
    ((splitOnChar '、' class_str).map trimChars).filter (fun c => c ≠ [])
  else if class_str.contains ',' then
    ((splitOnChar ',' class_str).map trimChars).filter (fun c => c ≠ [])
  else [class_str]

/-- Slot-count derivation of `preprocess_data` (lines 71–75):
`total_hour // HOUR_PER_SLOT`, plus one when the division leaves a
remainder (自动向上取整). -/
def required_slots_of (total_hour : Nat) : Nat :=
  if total_hour % HOUR_PER_SLOT ≠ 0 then total_hour / HOUR_PER_SLOT + 1
  else total_hour / HOUR_PER_SLOT

/-- Whether the advisory adjustment note (`⚠️ 课程[...]总学时...，调整为...个时段`)
is printed for a course: exactly when the division leaves a remainder. -/
def emits_adjustment_note (total_hour : Nat) : Bool :=
  total_hour % HOUR_PER_SLOT != 0

/-- A normalized course demand — one entry of the `courses` dict. -/
structure Course where
  id : Nat
  name : String
  teacher : String
  classes : List ClassName
  room : String
  total_hour : Nat
  required_slots : Nat
  type : String
deriving DecidableEq

/-- Whether a row survives `df.dropna(subset=core_cols)`: all six core
cells are present. -/
def rowComplete (r : Row) : Bool :=
  r.course_name.isSome && r.teacher_name.isSome && r.class_field.isSome &&
  r.room.isSome && r.total_hour.isSome && r.hour_type.isSome

/-- Build the `courses[course_id]` record from the `i`-th kept row
(0-based, so the label in the source is `C` followed by `i + 1`, and we store `i + 1`). -/
def courseOfRow (i : Nat) (r : Row) : Course :=
  let total_hour := r.total_hour.getD 0
  { id := i + 1
    name := r.course_name.getD ""
    teacher := r.teacher_name.getD ""
    classes := splitClasses (r.class_field.getD [])
    room := r.room.getD ""
    total_hour := total_hour
    required_slots := required_slots_of total_hour
    type := r.hour_type.getD "" }

/-- The one kind of error `preprocess_data` raises:
`ValueError(f"Excel缺少列：{missing_cols}")`. -/
inductive PreprocessError
  | missing_cols (cols : List String)
deriving DecidableEq

/-- The data-normalization step `preprocess_data` (lines 40–96): check
that every required column is present (raising with the full list of
missing columns otherwise), drop incomplete rows, and build one
`Course` per surviving row, identifiers assigned sequentially. -/
def preprocess_data (real_columns : List String) (rows : List Row) :
    Except PreprocessError (List Course) :=
  let missing := core_cols.filter (fun col => !(real_columns.contains col))
  if missing.isEmpty then
    let kept := rows.filter rowComplete
    Except.ok (kept.enum.map (fun p => courseOfRow p.1 p.2))
  else
    Except.error (.missing_cols missing)

/-- Total slot capacity `total_available_slots = len(TIMES)` (= 480). -/
def total_available_slots : Nat := TIMES.length

/-- The teacher-demand aggregation loop of `preprocess_data` (lines
103–105): a dict, built by `teachers[t] = teachers.get(t, 0) +
required_slots`, modelled as the function it computes. -/
def teachersAgg (courses : List Course) : String → Nat :=
  courses.foldl
    (fun acc c => fun s => if s == c.teacher then acc s + c.required_slots else acc s)
    (fun _ => 0)

/-- The class-demand aggregation loop of `preprocess_data` (lines
106–108): each course adds its full `required_slots` to every class it
references. -/
def classesAgg (courses : List Course) : ClassName → Nat :=
  courses.foldl
    (fun acc c =>
      c.classes.foldl
        (fun acc2 cl => fun s => if s == cl then acc2 s + c.required_slots else acc2 s)
        acc)
    (fun _ => 0)

/-- The per-resource gap printed by the analyzer: `slots - total_available_slots`. -/
def gap_of (demand : Nat) : Int := (demand : Int) - (total_available_slots : Int)

/-- Whether the analyzer flags a resource (`❌ 缺口...` instead of `✅`):
exactly when its gap is not `≤ 0`. -/
def flags_violation (demand : Nat) : Bool := !(gap_of demand ≤ 0)

/-- Comparison kind of a PuLP constraint in this program: `==` or `<=`. -/
inductive CmpKind
  | eq
  | le
deriving DecidableEq

/-- Whether a comparison kind is the equality kind. -/
def CmpKind.isEq : CmpKind → Bool
  | .eq => true
  | .le => false

/-- The PuLP name of the constraint, in structured form: `Hour_Constraint_{cid}`,
`Teacher_Conflict_{teacher}_{t}`, `Class_Conflict_{cls}_{t}`,
`Room_Conflict_{room}_{t}`. -/
inductive ConTag
  | hour (cid : Nat)
  | teacher_conflict (teacher : String) (t : Time)
  | class_conflict (cls : ClassName) (t : Time)
  | room_conflict (room : String) (t : Time)
deriving DecidableEq

/-- One linear constraint `lpSum(x[k] for k in vars) cmp rhs`: every
variable in this program occurs with coefficient 1. -/
structure Constraint where
  tag : ConTag
  vars : List (Nat × Time)
  cmp : CmpKind
  rhs : Nat
deriving DecidableEq

/-- The assembled model: the constant objective `prob += 0`, the declared
variable keys, and the constraint list in emission order. -/
structure SchedModel where
  objective : Int
  vars : List (Nat × Time)
  constraints : List Constraint
deriving DecidableEq

/-- The hour-fulfillment constraint of a course (line 151):
`lpSum(x[(cid, t)] for t in TIMES) == required_slots`. -/
def hour_constraint (c : Course) : Constraint :=
  { tag := .hour c.id
    vars := TIMES.map (fun t => (c.id, t))
    cmp := .eq
    rhs := c.required_slots }

/-- The teacher-conflict constraint for one teacher and one slot (line
159): `lpSum(x[(cid, t)] for cid in teacher_courses) <= 1`. -/
def teacher_conflict_constraint (courses : List Course) (teacher : String) (t : Time) :
    Constraint :=
  { tag := .teacher_conflict teacher t
    vars := (courses.filter (fun c => c.teacher == teacher)).map (fun c => (c.id, t))
    cmp := .le
    rhs := 1 }

/-- The class-conflict constraint for one class and one slot (line 170):
`lpSum(x[(cid, t)] for cid in class_courses) <= 1`. -/
def class_conflict_constraint (courses : List Course) (cls : ClassName) (t : Time) :
    Constraint :=
  { tag := .class_conflict cls t
    vars := (courses.filter (fun c => c.classes.contains cls)).map (fun c => (c.id, t))
    cmp := .le
    rhs := 1 }

/-- The room-conflict constraint for one room category and one slot (line
181): `lpSum(x[(cid, t)] for cid in room_courses) <= 1`. -/
def room_conflict_constraint (courses : List Course) (room : String) (t : Time) :
    Constraint :=
  { tag := .room_conflict room t
    vars := (courses.filter (fun c => c.room == room)).map (fun c => (c.id, t))
    cmp := .le
    rhs := 1 }

/-- The teacher-conflict family: one constraint per distinct teacher
(`list(set(...))`, modelled by `dedup`) per slot, in loop order. -/
def teacher_family (courses : List Course) : List Constraint :=
  ((courses.map Course.teacher).dedup).flatMap
    (fun teacher => TIMES.map (fun t => teacher_conflict_constraint courses teacher t))

/-- The class-conflict family: one constraint per distinct class per slot. -/
def class_family (courses : List Course) : List Constraint :=
  ((courses.flatMap Course.classes).dedup).flatMap
    (fun cls => TIMES.map (fun t => class_conflict_constraint courses cls t))

/-- The room-conflict family: one constraint per distinct room category per slot. -/
def room_family (courses : List Course) : List Constraint :=
  ((courses.map Course.room).dedup).flatMap
    (fun room => TIMES.map (fun t => room_conflict_constraint courses room t))

/-- The model builder `build_scheduling_model` (lines 130–187): one
variable key per (course, slot) pair, the zero objective, the hour
equalities, then the three conflict families guarded by their toggles. -/
def build_scheduling_model (enable_teacher enable_class enable_room : Bool)
    (courses : List Course) : SchedModel :=
  { objective := 0
    vars := courses.flatMap (fun c => TIMES.map (fun t => (c.id, t)))
    constraints :=
      courses.map hour_constraint
        ++ (cond enable_teacher (teacher_family courses) [])
        ++ (cond enable_class (class_family courses) [])
        ++ (cond enable_room (room_family courses) []) }

/-- Satisfaction of one constraint by a valuation of the variable keys. -/
def Constraint.holdsFor (σ : Nat × Time → Nat) (con : Constraint) : Prop :=
  match con.cmp with
  | .eq => (con.vars.map σ).sum = con.rhs
  | .le => (con.vars.map σ).sum ≤ con.rhs

/-- A feasible point of the model: every declared variable is 0/1 (the
`lowBound=0, upBound=1, cat=LpInteger` declaration) and every emitted
constraint holds. -/
def FeasiblePoint (M : SchedModel) (σ : Nat × Time → Nat) : Prop :=
  (∀ v ∈ M.vars, σ v ≤ 1) ∧ (∀ con ∈ M.constraints, con.holdsFor σ)

/-- The `LpStatus` table of PuLP, mapping `prob.status` to its display name. -/
def LpStatusName (status : Int) : String :=
  if status = 1 then "Optimal"
  else if status = 0 then "Not Solved"
  else if status = -1 then "Infeasible"
  else if status = -2 then "Unbounded"
  else "Undefined"

/-- One reconstructed per-course output record of `solve_and_export`
(lines 204–215).  `required_slots` is copied from the demand
(`排课时段数`); `assigned` collects the slots whose variable value is 1
(`排课时段`).  The source joins `classes` with `、` for display; the
joined text is determined by the list kept here. -/
structure CourseResult where
  id : Nat
  name : String
  teacher : String
  classes : List ClassName
  room : String
  total_hour : Nat
  required_slots : Nat
  assigned : List Time
deriving DecidableEq

/-- The result-reconstruction loop of `solve_and_export` on the success
path: one record per course, collecting `[t for t in TIMES if
x[(cid, t)].varValue == 1]`. -/
def reconstruct_results (courses : List Course) (value : Nat × Time → Nat) :
    List CourseResult :=
  courses.map (fun c =>
    { id := c.id
      name := c.name
      teacher := c.teacher
      classes := c.classes
      room := c.room
      total_hour := c.total_hour
      required_slots := c.required_slots
      assigned := TIMES.filter (fun t => value (c.id, t) == 1) })

/-- The banner printed on every non-optimal outcome: `⚠️ 仍无可行解！终极建议：`. -/
def no_feasible_banner : String := "仍无可行解！终极建议"

/-- The three remediation suggestions printed on every non-optimal outcome. -/
def remediation_suggestions : List String :=
  ["临时关闭班级约束（ENABLE_CLASS_CONSTRAINT=False），确认基础可行性",
   "检查Excel中是否有同一班级课时需求远超480的异常数据",
   "核对课程总学时是否录入错误（如把16学时录成160）"]

/-- What `solve_and_export` produces after printing the solver status:
either the failure report of the `prob.status != 1` branch, or the
reconstructed per-course results. -/
inductive SolveOutput
  | failure (statusName : String) (banner : String) (suggestions : List String)
  | results (statusName : String) (rs : List CourseResult)
deriving DecidableEq

/-- The dispatch of `solve_and_export` (lines 190–215): every status
other than 1 (`Optimal`) takes the failure branch; status 1 reconstructs
the assignment.  The printed status name is carried in both cases. -/
def solve_and_export (status : Int) (courses : List Course)
    (value : Nat × Time → Nat) : SolveOutput :=
  if status ≠ 1 then
    SolveOutput.failure (LpStatusName status) no_feasible_banner remediation_suggestions
  else
    SolveOutput.results (LpStatusName status) (reconstruct_results courses value)

/-- A candidate solver point used to show feasibility when only the
hour constraints are present: each course occupies the first
`required_slots` slots of the universe. -/
def first_slots_point (courses : List Course) : Nat × Time → Nat :=
  fun p =>
    match courses.find? (fun c => c.id == p.1) with
    | some c => if p.2 ∈ TIMES.take c.required_slots then 1 else 0
    | none => 0

/-- Demo demand set for the model-shape claim. -/
def demo_c1 : List Course :=
  [{ id := 1, name := "高等数学", teacher := "张三", classes := ["CS101".toList, "CS102".toList],
     room := "普通教室", total_hour := 32, required_slots := 16, type := "理论" },
   { id := 2, name := "大学英语", teacher := "李四", classes := ["CS101".toList],
     room := "语音室", total_hour := 17, required_slots := 9, type := "理论" }]

/-- Demo demand set for the conflict-family claim: two courses share
teacher `T1` and class `CS101`. -/
def demo_c2 : List Course :=
  [{ id := 1, name := "甲课", teacher := "T1", classes := ["CS101".toList],
     room := "R1", total_hour := 4, required_slots := 2, type := "理论" },
   { id := 2, name := "乙课", teacher := "T1", classes := ["CS101".toList, "CS102".toList],
     room := "R2", total_hour := 6, required_slots := 3, type := "实验" }]

/-- Demo demand set for the no-conflict feasibility claim: one small
course and one course that needs the whole universe. -/
def demo_c9 : List Course :=
  [{ id := 1, name := "甲课", teacher := "T1", classes := ["CS101".toList],
     room := "R1", total_hour := 4, required_slots := 2, type := "理论" },
   { id := 2, name := "乙课", teacher := "T1", classes := ["CS101".toList],
     room := "R1", total_hour := 960, required_slots := 480, type := "理论" }]

/-- Complete demo row (17 total hours, so the slot count rounds up). -/
def row_c3 : Row :=
  { course_name := some "离散数学", teacher_name := some "赵六",
    class_field := some "CS301".toList, room := some "普通教室",
    total_hour := some 17, hour_type := some "理论" }

/-- Complete demo row used alongside an incomplete one. -/
def row_c4_good : Row :=
  { course_name := some "高等数学", teacher_name := some "张三",
    class_field := some "CS101、CS102".toList, room := some "普通教室",
    total_hour := some 16, hour_type := some "理论" }

/-- Demo row whose 课程总学时 cell is missing (`NaN`). -/
def row_c4_bad : Row :=
  { course_name := some "大学英语", teacher_name := some "李四",
    class_field := some "CS201".toList, room := some "普通教室",
    total_hour := none, hour_type := some "理论" }

/-- Demo course for the reconstruction claim: it requires 2 slots. -/
def c5_course : Course :=
  { id := 1, name := "高等数学", teacher := "张三", classes := ["CS101".toList],
    room := "机房", total_hour := 4, required_slots := 2, type := "理论" }

/-- Three courses of one teacher with slot demands 200, 150 and 100. -/
def c8_demand3 : List Course :=
  [{ id := 1, name := "课一", teacher := "王五", classes := [], room := "R",
     total_hour := 400, required_slots := 200, type := "理论" },
   { id := 2, name := "课二", teacher := "王五", classes := [], room := "R",
     total_hour := 300, required_slots := 150, type := "理论" },
   { id := 3, name := "课三", teacher := "王五", classes := [], room := "R",
     total_hour := 200, required_slots := 100, type := "理论" }]

/-- The same teacher with a fourth course of 50 slots added. -/
def c8_demand4 : List Course :=
  c8_demand3 ++
    [{ id := 4, name := "课四", teacher := "王五", classes := [], room := "R",
       total_hour := 100, required_slots := 50, type := "理论" }]

theorem TIMES_nodup : TIMES.Nodup :=
  List.Nodup.product (List.nodup_range' _ _)
    (List.Nodup.product (List.nodup_range' _ _) (List.nodup_range' _ _))

theorem TIMES_length : TIMES.length = 480 := by decide

/-- Number of occurrences of `a` in `l`, used for the "exactly one
constraint/variable per pair" statements. -/
def countOcc {α : Type} [DecidableEq α] (a : α) : List α → Nat
  | [] => 0
  | b :: l => (if b = a then 1 else 0) + countOcc a l

theorem countOcc_append {α : Type} [DecidableEq α] (a : α) (l₁ l₂ : List α) :
    countOcc a (l₁ ++ l₂) = countOcc a l₁ + countOcc a l₂ := by
  induction l₁ with
  | nil => simp [countOcc]
  | cons b l ih =>
    simp only [List.cons_append, countOcc, List.append_eq, ih]
    omega

theorem countOcc_eq_zero {α : Type} [DecidableEq α] {a : α} {l : List α}
    (h : a ∉ l) : countOcc a l = 0 := by
  induction l with
  | nil => rfl
  | cons b l ih =>
    have hba : ¬ b = a := fun he => h (he ▸ List.mem_cons_self b l)
    simp only [countOcc, if_neg hba, ih (fun hm => h (List.mem_cons_of_mem b hm))]

theorem countOcc_eq_one {α : Type} [DecidableEq α] {a : α} {l : List α}
    (hn : l.Nodup) (hm : a ∈ l) : countOcc a l = 1 := by
  induction l with
  | nil => cases hm
  | cons b l ih =>
    rcases List.mem_cons.mp hm with rfl | hm2
    · show (if a = a then 1 else 0) + countOcc a l = 1
      rw [if_pos rfl, countOcc_eq_zero (List.nodup_cons.mp hn).1]
    · have hba : ¬ b = a := fun he => (List.nodup_cons.mp hn).1 (he ▸ hm2)
      simp only [countOcc, if_neg hba, ih (List.nodup_cons.mp hn).2 hm2]

theorem countOcc_map {α β : Type} [DecidableEq α] [DecidableEq β] {f : α → β}
    (hf : ∀ x y, f x = f y → x = y) (a : α) (l : List α) :
    countOcc (f a) (l.map f) = countOcc a l := by
  induction l with
  | nil => rfl
  | cons b l ih =>
    simp only [List.map_cons, countOcc, ih]
    by_cases h : b = a
    · rw [if_pos (h ▸ rfl), if_pos h]
    · rw [if_neg (fun he => h (hf _ _ he)), if_neg h]

theorem countOcc_flatMap_key {α β γ κ : Type} [DecidableEq γ] [DecidableEq κ] [DecidableEq β]
    (key : α → κ) (f : κ → β → γ) (la : List α) (lb : List β)
    (ha : (la.map key).Nodup) (hb : lb.Nodup)
    (hinj : ∀ k₁ b₁ k₂ b₂, f k₁ b₁ = f k₂ b₂ → k₁ = k₂ ∧ b₁ = b₂)
    {a : α} {b : β} (hma : a ∈ la) (hmb : b ∈ lb) :
    countOcc (f (key a) b) (la.flatMap (fun x => lb.map (f (key x)))) = 1 := by
  induction la with
  | nil => cases hma
  | cons a0 la ih =>
    rw [List.flatMap_cons, countOcc_append]
    rcases List.mem_cons.mp hma with rfl | hma2
    · have h1 : countOcc (f (key a) b) (lb.map (f (key a))) = 1 := by
        rw [countOcc_map (fun x y he => (hinj _ _ _ _ he).2) b lb]
        exact countOcc_eq_one hb hmb
      have h0 : countOcc (f (key a) b) (la.flatMap fun x => lb.map (f (key x))) = 0 := by
        apply countOcc_eq_zero
        intro hmem
        rcases List.mem_flatMap.mp hmem with ⟨x, hx, hmem2⟩
        rcases List.mem_map.mp hmem2 with ⟨b', _, heq⟩
        have hkx : key x = key a := (hinj _ _ _ _ heq).1
        exact (List.nodup_cons.mp ha).1 (hkx ▸ List.mem_map_of_mem key hx)
      rw [h1, h0]
    · have h0 : countOcc (f (key a) b) (lb.map (f (key a0))) = 0 := by
        apply countOcc_eq_zero
        intro hmem
        rcases List.mem_map.mp hmem with ⟨b', _, heq⟩
        have hk : key a0 = key a := (hinj _ _ _ _ heq).1
        exact (List.nodup_cons.mp ha).1 (hk ▸ List.mem_map_of_mem key hma2)
      rw [h0, ih (List.nodup_cons.mp ha).2 hma2]

theorem find?_course_id {courses : List Course} (h : (courses.map Course.id).Nodup)
    {c : Course} (hc : c ∈ courses) :
    courses.find? (fun c' => c'.id == c.id) = some c := by
  induction courses with
  | nil => cases hc
  | cons a l ih =>
    rcases List.mem_cons.mp hc with rfl | hm
    · exact @List.find?_cons_of_pos _ (fun c' => c'.id == c.id) c l (by simp)
    · have hne : ¬ ((fun c' => c'.id == c.id) a) = true := by
        simp only [beq_iff_eq]
        intro he
        exact (List.nodup_cons.mp h).1 (he ▸ List.mem_map_of_mem Course.id hm)
      rw [@List.find?_cons_of_neg _ (fun c' => c'.id == c.id) a l hne]
      exact ih (List.nodup_cons.mp h).2 hm

theorem sum_indicator_take :
    ∀ (l : List Time), l.Nodup → ∀ (n : Nat),
      (l.map (fun t => if t ∈ l.take n then (1 : Nat) else 0)).sum = min n l.length
  | [], _, n => by simp
  | a :: l, _, 0 => by simp
  | a :: l, hn, n + 1 => by
    have hal : a ∉ l := (List.nodup_cons.mp hn).1
    rw [List.take_succ_cons, List.map_cons]
    have hhead : (if a ∈ a :: l.take n then (1 : Nat) else 0) = 1 :=
      if_pos (List.mem_cons_self a _)
    have htail : l.map (fun t => if t ∈ a :: l.take n then (1 : Nat) else 0)
        = l.map (fun t => if t ∈ l.take n then (1 : Nat) else 0) := by
      apply List.map_congr_left
      intro t ht
      have hiff : (t ∈ a :: l.take n) ↔ (t ∈ l.take n) := by
        constructor
        · intro h2
          rcases List.mem_cons.mp h2 with rfl | h3
          · exact absurd ht hal
          · exact h3
        · exact fun h3 => List.mem_cons_of_mem a h3
      exact if_congr hiff rfl rfl
    rw [List.sum_cons, hhead, htail,
      sum_indicator_take l (List.nodup_cons.mp hn).2 n, List.length_cons,
      Nat.succ_min_succ]
    omega

theorem mem_teacher_family {courses : List Course} {con : Constraint} :
    con ∈ teacher_family courses ↔
      ∃ r ∈ (courses.map Course.teacher).dedup, ∃ t ∈ TIMES,
        con = teacher_conflict_constraint courses r t := by
  simp only [teacher_family, List.mem_flatMap, List.mem_map, eq_comm]

theorem mem_class_family {courses : List Course} {con : Constraint} :
    con ∈ class_family courses ↔
      ∃ r ∈ (courses.flatMap Course.classes).dedup, ∃ t ∈ TIMES,
        con = class_conflict_constraint courses r t := by
  simp only [class_family, List.mem_flatMap, List.mem_map, eq_comm]

theorem mem_room_family {courses : List Course} {con : Constraint} :
    con ∈ room_family courses ↔
      ∃ r ∈ (courses.map Course.room).dedup, ∃ t ∈ TIMES,
        con = room_conflict_constraint courses r t := by
  simp only [room_family, List.mem_flatMap, List.mem_map, eq_comm]

theorem mem_cond_family {b : Bool} {l : List Constraint} {con : Constraint}
    (h : con ∈ cond b l []) : b = true ∧ con ∈ l := by
  cases b
  · cases h
  · exact ⟨rfl, h⟩

theorem teachersAgg_loop (courses : List Course) (acc : String → Nat) (s : String) :
    (courses.foldl
      (fun acc c => fun s => if s == c.teacher then acc s + c.required_slots else acc s)
      acc) s
    = acc s + ((courses.filter (fun c => c.teacher == s)).map Course.required_slots).sum := by
  induction courses generalizing acc with
  | nil => simp
  | cons c l ih =>
    rw [List.foldl_cons, ih, List.filter_cons]
    by_cases h : c.teacher = s
    · rw [if_pos (by simp [h]), if_pos (by simp [h]), List.map_cons, List.sum_cons]
      omega
    · rw [if_neg (by simp only [beq_iff_eq]; exact fun he => h he.symm),
        if_neg (by simp only [beq_iff_eq]; exact h)]

theorem classesAgg_inner_loop (cls_list : List ClassName) (req : Nat)
    (acc : ClassName → Nat) (s : ClassName) :
    (cls_list.foldl (fun acc2 cl => fun s => if s == cl then acc2 s + req else acc2 s) acc) s
    = acc s + countOcc s cls_list * req := by
  induction cls_list generalizing acc with
  | nil => simp [countOcc]
  | cons cl l ih =>
    rw [List.foldl_cons, ih]
    show _ = acc s + ((if cl = s then 1 else 0) + countOcc s l) * req
    by_cases h : s = cl
    · rw [if_pos (by simp [h]), if_pos (Eq.symm h)]
      ring
    · rw [if_neg (by simp [h]), if_neg (fun he => h (Eq.symm he))]
      ring

theorem classesAgg_loop (courses : List Course) (acc : ClassName → Nat) (s : ClassName) :
    (courses.foldl
      (fun acc c =>
        c.classes.foldl
          (fun acc2 cl => fun s => if s == cl then acc2 s + c.required_slots else acc2 s)
          acc)
      acc) s
    = acc s + (courses.map (fun c => countOcc s c.classes * c.required_slots)).sum := by
  induction courses generalizing acc with
  | nil => simp
  | cons c l ih =>
    rw [List.foldl_cons, ih, classesAgg_inner_loop, List.map_cons, List.sum_cons]
    omega

theorem required_slots_of_eq_ceil (h : Nat) :
    required_slots_of h = (h + HOUR_PER_SLOT - 1) / HOUR_PER_SLOT := by
  simp only [required_slots_of, HOUR_PER_SLOT]
  by_cases hm : h % 2 = 0
  · simp only [hm, ne_eq, not_true_eq_false, if_false]
    omega
  · simp only [hm, ne_eq, not_false_eq_true, if_true]
    omega

theorem required_slots_of_pos {h : Nat} (hp : 0 < h) : 1 ≤ required_slots_of h := by
  simp only [required_slots_of, HOUR_PER_SLOT]
  by_cases hm : h % 2 = 0
  · simp only [hm, ne_eq, not_true_eq_false, if_false]
    omega
  · simp only [hm, ne_eq, not_false_eq_true, if_true]
    omega

theorem emits_adjustment_note_iff (h : Nat) :
    emits_adjustment_note h = true ↔ ¬ h % HOUR_PER_SLOT = 0 := by
  simp [emits_adjustment_note]

theorem preprocess_ok_shape {real_columns : List String} {rows : List Row}
    {courses : List Course}
    (hok : preprocess_data real_columns rows = Except.ok courses) :
    courses = (rows.filter rowComplete).enum.map (fun p => courseOfRow p.1 p.2) := by
  simp only [preprocess_data] at hok
  split at hok
  · exact (Except.ok.inj hok).symm
  · cases hok

theorem preprocess_missing_shape {real_columns : List String} {rows : List Row}
    (hmiss : ¬ (core_cols.filter (fun col => !(real_columns.contains col))) = []) :
    preprocess_data real_columns rows =
      Except.error
        (.missing_cols (core_cols.filter (fun col => !(real_columns.contains col)))) := by
  simp only [preprocess_data]
  split
  · rename_i hemp
    exact absurd (List.isEmpty_iff.mp hemp) hmiss
  · rfl

theorem snd_mem_of_mem_enumFrom {α : Type} :
    ∀ (l : List α) (n : Nat) (p : Nat × α), p ∈ l.enumFrom n → p.2 ∈ l
  | [], _, _, h => by cases h
  | a :: l, n, p, h => by
    rcases List.mem_cons.mp h with rfl | h2
    · exact List.mem_cons_self a l
    · exact List.mem_cons_of_mem a (snd_mem_of_mem_enumFrom l (n + 1) p h2)

theorem snd_mem_of_mem_enum {α : Type} {l : List α} {p : Nat × α}
    (h : p ∈ l.enum) : p.2 ∈ l :=
  snd_mem_of_mem_enumFrom l 0 p h

theorem countOcc_map_key {α γ κ : Type} [DecidableEq γ] [DecidableEq κ]
    (key : α → κ) (g : α → γ) (hkey : ∀ x y, g x = g y → key x = key y)
    {l : List α} (hn : (l.map key).Nodup) {a : α} (ha : a ∈ l) :
    countOcc (g a) (l.map g) = 1 := by
  induction l with
  | nil => cases ha
  | cons b l ih =>
    rcases List.mem_cons.mp ha with rfl | ha2
    · show (if g a = g a then 1 else 0) + countOcc (g a) (l.map g) = 1
      rw [if_pos rfl]
      have hz : countOcc (g a) (l.map g) = 0 := by
        apply countOcc_eq_zero
        intro hm
        rcases List.mem_map.mp hm with ⟨x, hx, he⟩
        have hk := hkey x a he
        exact (List.nodup_cons.mp hn).1 (hk ▸ List.mem_map_of_mem key hx)
      rw [hz]
    · show (if g b = g a then 1 else 0) + countOcc (g a) (l.map g) = 1
      have hne : ¬ g b = g a := by
        intro he
        have hk := hkey b a he
        have hmem := List.mem_map_of_mem key ha2
        rw [← hk] at hmem
        exact (List.nodup_cons.mp hn).1 hmem
      rw [if_neg hne, ih (List.nodup_cons.mp hn).2 ha2]

theorem teacher_target_count (eC eR : Bool) (courses : List Course) {r : String} {t : Time}
    (hr : r ∈ (courses.map Course.teacher).dedup) (ht : t ∈ TIMES) :
    countOcc (teacher_conflict_constraint courses r t)
      (build_scheduling_model true eC eR courses).constraints = 1 := by
  simp only [build_scheduling_model, cond_true]
  rw [countOcc_append, countOcc_append, countOcc_append]
  have h1 : countOcc (teacher_conflict_constraint courses r t)
      (courses.map hour_constraint) = 0 := by
    apply countOcc_eq_zero
    intro hm
    rcases List.mem_map.mp hm with ⟨c, _, he⟩
    simp [hour_constraint, teacher_conflict_constraint] at he
  have h2 : countOcc (teacher_conflict_constraint courses r t)
      (teacher_family courses) = 1 := by
    exact countOcc_flatMap_key (fun r₀ : String => r₀)
      (fun r₀ t₀ => teacher_conflict_constraint courses r₀ t₀)
      ((courses.map Course.teacher).dedup) TIMES
      (by simpa using List.nodup_dedup (courses.map Course.teacher)) TIMES_nodup
      (fun k₁ b₁ k₂ b₂ he => by
        have h := congrArg Constraint.tag he
        simp only [teacher_conflict_constraint] at h
        injection h with h1 h2
        exact ⟨h1, h2⟩)
      hr ht
  have h3 : countOcc (teacher_conflict_constraint courses r t)
      (cond eC (class_family courses) []) = 0 := by
    cases eC
    · rfl
    · apply countOcc_eq_zero
      intro hm
      rcases mem_class_family.mp hm with ⟨r', _, t', _, he⟩
      simp [teacher_conflict_constraint, class_conflict_constraint] at he
  have h4 : countOcc (teacher_conflict_constraint courses r t)
      (cond eR (room_family courses) []) = 0 := by
    cases eR
    · rfl
    · apply countOcc_eq_zero
      intro hm
      rcases mem_room_family.mp hm with ⟨r', _, t', _, he⟩
      simp [teacher_conflict_constraint, room_conflict_constraint] at he
  rw [h1, h2, h3, h4]

theorem class_target_count (eT eR : Bool) (courses : List Course) {r : ClassName} {t : Time}
    (hr : r ∈ (courses.flatMap Course.classes).dedup) (ht : t ∈ TIMES) :
    countOcc (class_conflict_constraint courses r t)
      (build_scheduling_model eT true eR courses).constraints = 1 := by
  simp only [build_scheduling_model, cond_true]
  rw [countOcc_append, countOcc_append, countOcc_append]
  have h1 : countOcc (class_conflict_constraint courses r t)
      (courses.map hour_constraint) = 0 := by
    apply countOcc_eq_zero
    intro hm
    rcases List.mem_map.mp hm with ⟨c, _, he⟩
    simp [hour_constraint, class_conflict_constraint] at he
  have h2 : countOcc (class_conflict_constraint courses r t)
      (cond eT (teacher_family courses) []) = 0 := by
    cases eT
    · rfl
    · apply countOcc_eq_zero
      intro hm
      rcases mem_teacher_family.mp hm with ⟨r', _, t', _, he⟩
      simp [class_conflict_constraint, teacher_conflict_constraint] at he
  have h3 : countOcc (class_conflict_constraint courses r t)
      (class_family courses) = 1 := by
    exact countOcc_flatMap_key (fun r₀ : ClassName => r₀)
      (fun r₀ t₀ => class_conflict_constraint courses r₀ t₀)
      ((courses.flatMap Course.classes).dedup) TIMES
      (by simpa using List.nodup_dedup (courses.flatMap Course.classes)) TIMES_nodup
      (fun k₁ b₁ k₂ b₂ he => by
        have h := congrArg Constraint.tag he
        simp only [class_conflict_constraint] at h
        injection h with h1 h2
        exact ⟨h1, h2⟩)
      hr ht
  have h4 : countOcc (class_conflict_constraint courses r t)
      (cond eR (room_family courses) []) = 0 := by
    cases eR
    · rfl
    · apply countOcc_eq_zero
      intro hm
      rcases mem_room_family.mp hm with ⟨r', _, t', _, he⟩
      simp [class_conflict_constraint, room_conflict_constraint] at he
  rw [h1, h2, h3, h4]

theorem room_target_count (eT eC : Bool) (courses : List Course) {r : String} {t : Time}
    (hr : r ∈ (courses.map Course.room).dedup) (ht : t ∈ TIMES) :
    countOcc (room_conflict_constraint courses r t)
      (build_scheduling_model eT eC true courses).constraints = 1 := by
  simp only [build_scheduling_model, cond_true]
  rw [countOcc_append, countOcc_append, countOcc_append]
  have h1 : countOcc (room_conflict_constraint courses r t)
      (courses.map hour_constraint) = 0 := by
    apply countOcc_eq_zero
    intro hm
    rcases List.mem_map.mp hm with ⟨c, _, he⟩
    simp [hour_constraint, room_conflict_constraint] at he
  have h2 : countOcc (room_conflict_constraint courses r t)
      (cond eT (teacher_family courses) []) = 0 := by
    cases eT
    · rfl
    · apply countOcc_eq_zero
      intro hm
      rcases mem_teacher_family.mp hm with ⟨r', _, t', _, he⟩
      simp [room_conflict_constraint, teacher_conflict_constraint] at he
  have h3 : countOcc (room_conflict_constraint courses r t)
      (cond eC (class_family courses) []) = 0 := by
    cases eC
    · rfl
    · apply countOcc_eq_zero
      intro hm
      rcases mem_class_family.mp hm with ⟨r', _, t', _, he⟩
      simp [room_conflict_constraint, class_conflict_constraint] at he
  have h4 : countOcc (room_conflict_constraint courses r t)
      (room_family courses) = 1 := by
    exact countOcc_flatMap_key (fun r₀ : String => r₀)
      (fun r₀ t₀ => room_conflict_constraint courses r₀ t₀)
      ((courses.map Course.room).dedup) TIMES
      (by simpa using List.nodup_dedup (courses.map Course.room)) TIMES_nodup
      (fun k₁ b₁ k₂ b₂ he => by
        have h := congrArg Constraint.tag he
        simp only [room_conflict_constraint] at h
        injection h with h1 h2
        exact ⟨h1, h2⟩)
      hr ht
  rw [h1, h2, h3, h4]

theorem teacher_tagged_mem (eT eC eR : Bool) (courses : List Course) {con : Constraint}
    (hm : con ∈ (build_scheduling_model eT eC eR courses).constraints)
    (htag : ∃ r t, con.tag = ConTag.teacher_conflict r t) :
    eT = true ∧ ∃ r ∈ (courses.map Course.teacher).dedup, ∃ t ∈ TIMES,
      con = teacher_conflict_constraint courses r t := by
  rcases htag with ⟨r0, t0, htag⟩
  simp only [build_scheduling_model, List.mem_append] at hm
  rcases hm with ((hm | hm) | hm) | hm
  · rcases List.mem_map.mp hm with ⟨c, _, he⟩
    rw [← he] at htag
    simp [hour_constraint] at htag
  · obtain ⟨hb, hmm⟩ := mem_cond_family hm
    exact ⟨hb, mem_teacher_family.mp hmm⟩
  · obtain ⟨_, hmm⟩ := mem_cond_family hm
    rcases mem_class_family.mp hmm with ⟨r', _, t', _, rfl⟩
    simp [class_conflict_constraint] at htag
  · obtain ⟨_, hmm⟩ := mem_cond_family hm
    rcases mem_room_family.mp hmm with ⟨r', _, t', _, rfl⟩
    simp [room_conflict_constraint] at htag

theorem class_tagged_mem (eT eC eR : Bool) (courses : List Course) {con : Constraint}
    (hm : con ∈ (build_scheduling_model eT eC eR courses).constraints)
    (htag : ∃ r t, con.tag = ConTag.class_conflict r t) :
    eC = true ∧ ∃ r ∈ (courses.flatMap Course.classes).dedup, ∃ t ∈ TIMES,
      con = class_conflict_constraint courses r t := by
  rcases htag with ⟨r0, t0, htag⟩
  simp only [build_scheduling_model, List.mem_append] at hm
  rcases hm with ((hm | hm) | hm) | hm
  · rcases List.mem_map.mp hm with ⟨c, _, he⟩
    rw [← he] at htag
    simp [hour_constraint] at htag
  · obtain ⟨_, hmm⟩ := mem_cond_family hm
    rcases mem_teacher_family.mp hmm with ⟨r', _, t', _, rfl⟩
    simp [teacher_conflict_constraint] at htag
  · obtain ⟨hb, hmm⟩ := mem_cond_family hm
    exact ⟨hb, mem_class_family.mp hmm⟩
  · obtain ⟨_, hmm⟩ := mem_cond_family hm
    rcases mem_room_family.mp hmm with ⟨r', _, t', _, rfl⟩
    simp [room_conflict_constraint] at htag

theorem room_tagged_mem (eT eC eR : Bool) (courses : List Course) {con : Constraint}
    (hm : con ∈ (build_scheduling_model eT eC eR courses).constraints)
    (htag : ∃ r t, con.tag = ConTag.room_conflict r t) :
    eR = true ∧ ∃ r ∈ (courses.map Course.room).dedup, ∃ t ∈ TIMES,
      con = room_conflict_constraint courses r t := by
  rcases htag with ⟨r0, t0, htag⟩
  simp only [build_scheduling_model, List.mem_append] at hm
  rcases hm with ((hm | hm) | hm) | hm
  · rcases List.mem_map.mp hm with ⟨c, _, he⟩
    rw [← he] at htag
    simp [hour_constraint] at htag
  · obtain ⟨_, hmm⟩ := mem_cond_family hm
    rcases mem_teacher_family.mp hmm with ⟨r', _, t', _, rfl⟩
    simp [teacher_conflict_constraint] at htag
  · obtain ⟨_, hmm⟩ := mem_cond_family hm
    rcases mem_class_family.mp hmm with ⟨r', _, t', _, rfl⟩
    simp [class_conflict_constraint] at htag
  · obtain ⟨hb, hmm⟩ := mem_cond_family hm
    exact ⟨hb, mem_room_family.mp hmm⟩

/-- C1: for every normalized demand set (distinct identifiers) and any
toggle setting, the built model has exactly one 0/1 decision variable
key per (course, slot) pair over the full slot universe and no others;
its equality constraints are exactly the per-course hour-fulfillment
constraints, one per course, each stating that the sum of the variables
of that course over all slots equals its required slot count; and the
objective is the constant zero. -/
theorem C1_model_shape (eT eC eR : Bool) (courses : List Course)
    (hids : (courses.map Course.id).Nodup) :
    (∀ c ∈ courses, ∀ t ∈ TIMES,
       countOcc (c.id, t) (build_scheduling_model eT eC eR courses).vars = 1)
    ∧ (∀ v ∈ (build_scheduling_model eT eC eR courses).vars,
        (∃ c ∈ courses, v.1 = c.id) ∧ v.2 ∈ TIMES)
    ∧ ((build_scheduling_model eT eC eR courses).constraints.filter
          (fun con => con.cmp.isEq) = courses.map hour_constraint)
    ∧ (∀ c ∈ courses,
        countOcc (hour_constraint c)
          (build_scheduling_model eT eC eR courses).constraints = 1)
    ∧ (build_scheduling_model eT eC eR courses).objective = 0 := by
  refine ⟨?_, ?_, ?_, ?_, rfl⟩
  · intro c hc t ht
    exact countOcc_flatMap_key Course.id (fun k b => (k, b)) courses TIMES hids TIMES_nodup
      (fun k₁ b₁ k₂ b₂ he => Prod.mk.inj he) hc ht
  · intro v hv
    simp only [build_scheduling_model] at hv
    rcases List.mem_flatMap.mp hv with ⟨c, hc, hv2⟩
    rcases List.mem_map.mp hv2 with ⟨t, ht, rfl⟩
    exact ⟨⟨c, hc, rfl⟩, ht⟩
  · simp only [build_scheduling_model]
    rw [List.filter_append, List.filter_append, List.filter_append]
    have h1 : (courses.map hour_constraint).filter (fun con => con.cmp.isEq)
        = courses.map hour_constraint :=
      List.filter_eq_self.mpr (by
        intro con hm
        rcases List.mem_map.mp hm with ⟨c, _, rfl⟩
        rfl)
    have h2 : (cond eT (teacher_family courses) []).filter (fun con => con.cmp.isEq) = [] := by
      cases eT
      · rfl
      · refine List.filter_eq_nil_iff.mpr ?_
        intro con hm
        rcases mem_teacher_family.mp hm with ⟨r, _, t, _, rfl⟩
        simp [teacher_conflict_constraint, CmpKind.isEq]
    have h3 : (cond eC (class_family courses) []).filter (fun con => con.cmp.isEq) = [] := by
      cases eC
      · rfl
      · refine List.filter_eq_nil_iff.mpr ?_
        intro con hm
        rcases mem_class_family.mp hm with ⟨r, _, t, _, rfl⟩
        simp [class_conflict_constraint, CmpKind.isEq]
    have h4 : (cond eR (room_family courses) []).filter (fun con => con.cmp.isEq) = [] := by
      cases eR
      · rfl
      · refine List.filter_eq_nil_iff.mpr ?_
        intro con hm
        rcases mem_room_family.mp hm with ⟨r, _, t, _, rfl⟩
        simp [room_conflict_constraint, CmpKind.isEq]
    rw [h1, h2, h3, h4, List.append_nil, List.append_nil, List.append_nil]
  · intro c hc
    simp only [build_scheduling_model]
    rw [countOcc_append, countOcc_append, countOcc_append]
    have h1 : countOcc (hour_constraint c) (courses.map hour_constraint) = 1 :=
      countOcc_map_key Course.id hour_constraint
        (fun x y he => by
          have h := congrArg Constraint.tag he
          simp only [hour_constraint, ConTag.hour.injEq] at h
          exact h)
        hids hc
    have h2 : countOcc (hour_constraint c) (cond eT (teacher_family courses) []) = 0 := by
      cases eT
      · rfl
      · apply countOcc_eq_zero
        intro hm
        rcases mem_teacher_family.mp hm with ⟨r, _, t, _, he⟩
        simp [hour_constraint, teacher_conflict_constraint] at he
    have h3 : countOcc (hour_constraint c) (cond eC (class_family courses) []) = 0 := by
      cases eC
      · rfl
      · apply countOcc_eq_zero
        intro hm
        rcases mem_class_family.mp hm with ⟨r, _, t, _, he⟩
        simp [hour_constraint, class_conflict_constraint] at he
    have h4 : countOcc (hour_constraint c) (cond eR (room_family courses) []) = 0 := by
      cases eR
      · rfl
      · apply countOcc_eq_zero
        intro hm
        rcases mem_room_family.mp hm with ⟨r, _, t, _, he⟩
        simp [hour_constraint, room_conflict_constraint] at he
    rw [h1, h2, h3, h4]

/-- C2: for each conflict dimension (class, teacher, room), when its
toggle is enabled the model contains, for every distinct resource value
of that dimension and every slot, exactly one `≤ 1` constraint summing
the variables of the courses sharing that value at that slot, and every
constraint carrying the tag of that dimension is of exactly that form; when
the toggle is disabled, no constraint of that family is emitted. -/
theorem C2_conflict_toggles (eT eC eR : Bool) (courses : List Course) :
    ((eT = true →
        ∀ r ∈ (courses.map Course.teacher).dedup, ∀ t ∈ TIMES,
          countOcc (teacher_conflict_constraint courses r t)
            (build_scheduling_model eT eC eR courses).constraints = 1)
     ∧ (∀ con ∈ (build_scheduling_model eT eC eR courses).constraints,
          (∃ r t, con.tag = ConTag.teacher_conflict r t) →
          eT = true ∧ ∃ r ∈ (courses.map Course.teacher).dedup, ∃ t ∈ TIMES,
            con = teacher_conflict_constraint courses r t)
     ∧ (eT = false →
        ∀ con ∈ (build_scheduling_model eT eC eR courses).constraints,
          ∀ r t, con.tag ≠ ConTag.teacher_conflict r t))
    ∧ ((eC = true →
        ∀ r ∈ (courses.flatMap Course.classes).dedup, ∀ t ∈ TIMES,
          countOcc (class_conflict_constraint courses r t)
            (build_scheduling_model eT eC eR courses).constraints = 1)
     ∧ (∀ con ∈ (build_scheduling_model eT eC eR courses).constraints,
          (∃ r t, con.tag = ConTag.class_conflict r t) →
          eC = true ∧ ∃ r ∈ (courses.flatMap Course.classes).dedup, ∃ t ∈ TIMES,
            con = class_conflict_constraint courses r t)
     ∧ (eC = false →
        ∀ con ∈ (build_scheduling_model eT eC eR courses).constraints,
          ∀ r t, con.tag ≠ ConTag.class_conflict r t))
    ∧ ((eR = true →
        ∀ r ∈ (courses.map Course.room).dedup, ∀ t ∈ TIMES,
          countOcc (room_conflict_constraint courses r t)
            (build_scheduling_model eT eC eR courses).constraints = 1)
     ∧ (∀ con ∈ (build_scheduling_model eT eC eR courses).constraints,
          (∃ r t, con.tag = ConTag.room_conflict r t) →
          eR = true ∧ ∃ r ∈ (courses.map Course.room).dedup, ∃ t ∈ TIMES,
            con = room_conflict_constraint courses r t)
     ∧ (eR = false →
        ∀ con ∈ (build_scheduling_model eT eC eR courses).constraints,
          ∀ r t, con.tag ≠ ConTag.room_conflict r t)) := by
  refine ⟨⟨?_, ?_, ?_⟩, ⟨?_, ?_, ?_⟩, ⟨?_, ?_, ?_⟩⟩
  · intro hET r hr t ht
    subst hET
    exact teacher_target_count eC eR courses hr ht
  · intro con hm htag
    exact teacher_tagged_mem eT eC eR courses hm htag
  · intro hEf con hm r t htag
    have h := (teacher_tagged_mem eT eC eR courses hm ⟨r, t, htag⟩).1
    rw [hEf] at h
    exact Bool.false_ne_true h
  · intro hEC r hr t ht
    subst hEC
    exact class_target_count eT eR courses hr ht
  · intro con hm htag
    exact class_tagged_mem eT eC eR courses hm htag
  · intro hEf con hm r t htag
    have h := (class_tagged_mem eT eC eR courses hm ⟨r, t, htag⟩).1
    rw [hEf] at h
    exact Bool.false_ne_true h
  · intro hER r hr t ht
    subst hER
    exact room_target_count eT eC courses hr ht
  · intro con hm htag
    exact room_tagged_mem eT eC eR courses hm htag
  · intro hEf con hm r t htag
    have h := (room_tagged_mem eT eC eR courses hm ⟨r, t, htag⟩).1
    rw [hEf] at h
    exact Bool.false_ne_true h

/-- C2 witness: with teacher and room enabled and class disabled on a
concrete demand set, there is exactly one teacher constraint for
teacher `T1` at slot (1,1,1) and no class-tagged constraint at all. -/
theorem C2_conflict_toggles_witness :
    countOcc (teacher_conflict_constraint demo_c2 "T1" (1, 1, 1))
      (build_scheduling_model true false true demo_c2).constraints = 1
    ∧ (∀ con ∈ (build_scheduling_model true false true demo_c2).constraints,
        ∀ r t, con.tag ≠ ConTag.class_conflict r t) :=
  ⟨(C2_conflict_toggles true false true demo_c2).1.1 rfl "T1" (by decide) (1, 1, 1) (by decide),
   (C2_conflict_toggles true false true demo_c2).2.1.2.2 rfl⟩

/-- C9: with all three conflict toggles disabled the emitted system is
exactly the per-course hour-fulfillment equalities over the 0/1
variables, and the point that gives every course the first
`required_slots` slots of the universe satisfies it whenever each
requirement of each single course fits in the slot universe on its own — so
disabling all toggles never alone produces infeasibility from
conflicts. -/
theorem C9_no_conflict_feasibility (courses : List Course)
    (hids : (courses.map Course.id).Nodup)
    (hreq : ∀ c ∈ courses, c.required_slots ≤ TIMES.length) :
    ((build_scheduling_model false false false courses).constraints
       = courses.map hour_constraint)
    ∧ FeasiblePoint (build_scheduling_model false false false courses)
        (first_slots_point courses) := by
  have hcons : (build_scheduling_model false false false courses).constraints
      = courses.map hour_constraint := by
    simp [build_scheduling_model]
  refine ⟨hcons, ?_, ?_⟩
  · intro v hv
    simp only [first_slots_point]
    cases hfind : courses.find? (fun c => c.id == v.1) with
    | none => exact Nat.zero_le 1
    | some c =>
      by_cases hin : v.2 ∈ TIMES.take c.required_slots
      · simp [hin]
      · simp [hin]
  · intro con hcon
    rw [hcons] at hcon
    rcases List.mem_map.mp hcon with ⟨c, hc, rfl⟩
    have hvars : (hour_constraint c).vars.map (first_slots_point courses)
        = TIMES.map (fun t => if t ∈ TIMES.take c.required_slots then (1 : Nat) else 0) := by
      simp only [hour_constraint, List.map_map]
      apply List.map_congr_left
      intro t _
      show first_slots_point courses (c.id, t) = _
      simp only [first_slots_point, find?_course_id hids hc]
    show ((hour_constraint c).vars.map (first_slots_point courses)).sum = c.required_slots
    rw [hvars]
    exact (sum_indicator_take TIMES TIMES_nodup c.required_slots).trans
      (min_eq_left (hreq c hc))

/-- C9 witness: the no-conflict feasibility theorem applied to a
concrete demand set whose two courses require 2 and 480 slots. -/
theorem C9_no_conflict_feasibility_witness :
    (demo_c9.map Course.id).Nodup
    ∧ (∀ c ∈ demo_c9, c.required_slots ≤ TIMES.length)
    ∧ (((build_scheduling_model false false false demo_c9).constraints
          = demo_c9.map hour_constraint)
       ∧ FeasiblePoint (build_scheduling_model false false false demo_c9)
           (first_slots_point demo_c9)) :=
  ⟨by decide, by decide, C9_no_conflict_feasibility demo_c9 (by decide) (by decide)⟩

/-- C1 witness: the model-shape theorem applied to a concrete two-course
demand set with all toggles enabled. -/
theorem C1_model_shape_witness :
    (demo_c1.map Course.id).Nodup
    ∧ ((∀ c ∈ demo_c1, ∀ t ∈ TIMES,
         countOcc (c.id, t) (build_scheduling_model true true true demo_c1).vars = 1)
      ∧ (∀ v ∈ (build_scheduling_model true true true demo_c1).vars,
          (∃ c ∈ demo_c1, v.1 = c.id) ∧ v.2 ∈ TIMES)
      ∧ ((build_scheduling_model true true true demo_c1).constraints.filter
            (fun con => con.cmp.isEq) = demo_c1.map hour_constraint)
      ∧ (∀ c ∈ demo_c1,
          countOcc (hour_constraint c)
            (build_scheduling_model true true true demo_c1).constraints = 1)
      ∧ (build_scheduling_model true true true demo_c1).objective = 0) :=
  ⟨by decide, C1_model_shape true true true demo_c1 (by decide)⟩

/-- C3: every normalized course gets
`required_slot_count = ceil(total_hours / hours_per_slot)` (at least 1
when the hours are positive), the adjustment note fires exactly when
the hours are not evenly divisible, and 17 total hours at 2 hours per
slot yield 9 slots with a note. -/
theorem C3_required_slots_ceiling (real_columns : List String) (rows : List Row)
    (courses : List Course)
    (hok : preprocess_data real_columns rows = Except.ok courses) :
    (∀ c ∈ courses,
       c.required_slots = required_slots_of c.total_hour
       ∧ (0 < c.total_hour →
           c.required_slots = (c.total_hour + HOUR_PER_SLOT - 1) / HOUR_PER_SLOT
           ∧ 1 ≤ c.required_slots)
       ∧ (emits_adjustment_note c.total_hour = true ↔ ¬ c.total_hour % HOUR_PER_SLOT = 0))
    ∧ required_slots_of 17 = 9 ∧ emits_adjustment_note 17 = true := by
  refine ⟨?_, by decide, by decide⟩
  intro c hc
  have hshape := preprocess_ok_shape hok
  subst hshape
  rcases List.mem_map.mp hc with ⟨p, _, rfl⟩
  refine ⟨rfl, ?_, emits_adjustment_note_iff _⟩
  intro hpos
  exact ⟨required_slots_of_eq_ceil _, required_slots_of_pos hpos⟩

/-- C3 witness: the slot-derivation theorem applied to a concrete row
with 17 total hours. -/
theorem C3_required_slots_ceiling_witness :
    preprocess_data core_cols [row_c3] = Except.ok [courseOfRow 0 row_c3]
    ∧ ((∀ c ∈ [courseOfRow 0 row_c3],
         c.required_slots = required_slots_of c.total_hour
         ∧ (0 < c.total_hour →
             c.required_slots = (c.total_hour + HOUR_PER_SLOT - 1) / HOUR_PER_SLOT
             ∧ 1 ≤ c.required_slots)
         ∧ (emits_adjustment_note c.total_hour = true ↔ ¬ c.total_hour % HOUR_PER_SLOT = 0))
      ∧ required_slots_of 17 = 9 ∧ emits_adjustment_note 17 = true) :=
  ⟨rfl, C3_required_slots_ceiling core_cols [row_c3] [courseOfRow 0 row_c3] rfl⟩

/-- C4 counterexample: a batch with one complete row and one row whose
课程总学时 cell is missing is preprocessed without any error — the
incomplete row is silently dropped, not reported, contradicting the
claimed per-row `ValidationError`. -/
theorem C4_counterexample :
    preprocess_data core_cols [row_c4_good, row_c4_bad] =
      Except.ok
        [{ id := 1, name := "高等数学", teacher := "张三",
           classes := ["CS101".toList, "CS102".toList], room := "普通教室",
           total_hour := 16, required_slots := 8, type := "理论" }] := by rfl

/-- C4 (amended): normalization validates the required columns in batch,
failing with an error naming all missing columns at once; an individual
row missing a required field is silently dropped — it is never solved
against, but no error is raised for it. -/
theorem C4_validation_behaviour (real_columns : List String) (rows : List Row) :
    ((core_cols.filter (fun col => !(real_columns.contains col))) ≠ [] →
      preprocess_data real_columns rows =
        Except.error
          (.missing_cols (core_cols.filter (fun col => !(real_columns.contains col)))))
    ∧ (∀ courses, preprocess_data real_columns rows = Except.ok courses →
        courses.length = (rows.filter rowComplete).length
        ∧ ∀ c ∈ courses, ∃ r ∈ rows, rowComplete r = true
            ∧ c.total_hour = r.total_hour.getD 0
            ∧ c.required_slots = required_slots_of (r.total_hour.getD 0)
            ∧ c.classes = splitClasses (r.class_field.getD [])) := by
  constructor
  · intro hne
    exact preprocess_missing_shape hne
  · intro courses hok
    have hshape := preprocess_ok_shape hok
    subst hshape
    constructor
    · rw [List.length_map, List.enum_length]
    · intro c hc
      rcases List.mem_map.mp hc with ⟨p, hp, rfl⟩
      have hr2 : p.2 ∈ rows.filter rowComplete := snd_mem_of_mem_enum hp
      have hr3 := List.mem_filter.mp hr2
      exact ⟨p.2, hr3.1, hr3.2, rfl, rfl, rfl⟩

/-- C4 witness: batch column validation fired on a column set missing
five of the six required columns. -/
theorem C4_validation_behaviour_witness :
    (core_cols.filter (fun col => !((["课程名称"] : List String).contains col)) ≠ [])
    ∧ preprocess_data ["课程名称"] []
        = Except.error
            (.missing_cols
              (core_cols.filter (fun col => !((["课程名称"] : List String).contains col)))) :=
  ⟨by decide, (C4_validation_behaviour ["课程名称"] []).1 (by decide)⟩

/-- C5 counterexample: a FEASIBLE (status 1, `Optimal`) outcome whose
variables are all zero is exported as a normal result whose collected
slot list is empty while `required_slots` is 2 — the counts differ, yet
no error of any kind is raised (no `ConsistencyError` exists in the
program). -/
theorem C5_counterexample :
    solve_and_export 1 [c5_course] (fun _ => 0)
      = SolveOutput.results "Optimal"
          [{ id := 1, name := "高等数学", teacher := "张三", classes := ["CS101".toList],
             room := "机房", total_hour := 4, required_slots := 2, assigned := [] }]
    ∧ ([] : List Time).length ≠ c5_course.required_slots := by
  exact ⟨by decide, by decide⟩

/-- C5 (amended): on the FEASIBLE status the reconstructor collects, for
each course, exactly the slots whose variable resolved to 1 and copies
`required_slots` from the demand, but performs no re-verification — the
result is always exported, even when the collected count differs from
the required count. -/
theorem C5_reconstruction (courses : List Course) (value : Nat × Time → Nat) :
    solve_and_export 1 courses value
      = SolveOutput.results (LpStatusName 1) (reconstruct_results courses value)
    ∧ (reconstruct_results courses value).length = courses.length
    ∧ (∀ c ∈ courses, ∃ res ∈ reconstruct_results courses value,
        res.id = c.id ∧ res.required_slots = c.required_slots
        ∧ (∀ t, t ∈ res.assigned ↔ t ∈ TIMES ∧ value (c.id, t) = 1)) := by
  refine ⟨by simp [solve_and_export], List.length_map courses _, ?_⟩
  intro c hc
  refine ⟨_, List.mem_map_of_mem _ hc, rfl, rfl, ?_⟩
  intro t
  constructor
  · intro hm
    have h := List.mem_filter.mp hm
    exact ⟨h.1, by simpa using h.2⟩
  · intro h
    exact List.mem_filter.mpr ⟨h.1, by simpa using h.2⟩

/-- C5 witness: the amended reconstruction contract applied to one
concrete course under the all-zero valuation. -/
theorem C5_reconstruction_witness :
    c5_course ∈ [c5_course]
    ∧ (∃ res ∈ reconstruct_results [c5_course] (fun _ => 0),
        res.id = c5_course.id ∧ res.required_slots = c5_course.required_slots
        ∧ (∀ t, t ∈ res.assigned ↔
            t ∈ TIMES ∧ (fun _ : Nat × Time => (0 : Nat)) (c5_course.id, t) = 1)) :=
  ⟨List.mem_cons_self _ _,
   (C5_reconstruction [c5_course] (fun _ => 0)).2.2 c5_course (List.mem_cons_self _ _)⟩

/-- C6 counterexample: status 0 (`Not Solved`, the time-limit outcome)
takes the same failure branch as status −1 (`Infeasible`): identical
"no feasible solution" banner and identical remediation suggestions, so
a timeout is presented as a failure of the model; only the printed raw
status name differs. -/
theorem C6_counterexample :
    solve_and_export 0 [] (fun _ => 0)
      = SolveOutput.failure "Not Solved" no_feasible_banner remediation_suggestions
    ∧ solve_and_export (-1) [] (fun _ => 0)
      = SolveOutput.failure "Infeasible" no_feasible_banner remediation_suggestions := by
  exact ⟨by decide, by decide⟩

/-- C6 (amended): every non-optimal status — the time-limit status 0
included — is routed through the one failure branch, which prints the
raw solver status name followed by the same "no feasible solution"
banner and remediation suggestions; the status name is the only part
distinguishing a timeout from a proven infeasibility. -/
theorem C6_failure_branch (status : Int) (courses : List Course)
    (value : Nat × Time → Nat) (h : status ≠ 1) :
    solve_and_export status courses value
      = SolveOutput.failure (LpStatusName status) no_feasible_banner remediation_suggestions
    ∧ LpStatusName 0 ≠ LpStatusName (-1) := by
  refine ⟨?_, by decide⟩
  simp [solve_and_export, h]

/-- C6 witness: the failure-branch theorem applied at the time-limit
status 0. -/
theorem C6_failure_branch_witness :
    (0 : Int) ≠ 1
    ∧ (solve_and_export 0 [] (fun _ => 0)
        = SolveOutput.failure (LpStatusName 0) no_feasible_banner remediation_suggestions
      ∧ LpStatusName 0 ≠ LpStatusName (-1)) :=
  ⟨by decide, C6_failure_branch 0 [] (fun _ => 0) (by decide)⟩

/-- C7: class-membership parsing splits on `、` when present, else on
`,` when present, else keeps the whole trimmed field as a single class
name; `CS101、CS102` and `CS101,CS102` both yield the classes CS101 and
CS102, and `CS101` yields itself. -/
theorem C7_class_split_policy :
    splitClasses "CS101、CS102".toList = ["CS101".toList, "CS102".toList]
    ∧ splitClasses "CS101,CS102".toList = ["CS101".toList, "CS102".toList]
    ∧ splitClasses "CS101".toList = ["CS101".toList]
    ∧ (∀ raw : List Char,
        (trimChars raw).contains '、' = false →
        (trimChars raw).contains ',' = false →
        splitClasses raw = [trimChars raw]) := by
  refine ⟨by decide, by decide, by decide, ?_⟩
  intro raw h1 h2
  have h1m : '、' ∉ trimChars raw := by simpa using h1
  have h2m : ',' ∉ trimChars raw := by simpa using h2
  simp [splitClasses, h1m, h2m]

/-- C7 witness: the no-delimiter branch applied to a concrete field. -/
theorem C7_class_split_policy_witness :
    (trimChars " CS103 ".toList).contains '、' = false
    ∧ (trimChars " CS103 ".toList).contains ',' = false
    ∧ splitClasses " CS103 ".toList = [trimChars " CS103 ".toList] :=
  ⟨by decide, by decide,
   C7_class_split_policy.2.2.2 " CS103 ".toList (by decide) (by decide)⟩

/-- C8: the analyzer aggregates `required_slots` per teacher, and per
class with each course contributing its full count to every class it
references; a resource is flagged exactly when its aggregate exceeds
the 480-slot capacity; demands 200+150+100 give 450 with gap −30 and no
flag, and adding 50 more gives 500 with gap +20, flagged. -/
theorem C8_gap_analysis :
    (∀ (courses : List Course) (s : String),
       teachersAgg courses s
         = ((courses.filter (fun c => c.teacher == s)).map Course.required_slots).sum)
    ∧ (∀ (courses : List Course) (cls : ClassName),
       classesAgg courses cls
         = (courses.map (fun c => countOcc cls c.classes * c.required_slots)).sum)
    ∧ total_available_slots = 480
    ∧ (∀ d : Nat, flags_violation d = true ↔ total_available_slots < d)
    ∧ teachersAgg c8_demand3 "王五" = 450 ∧ gap_of 450 = -30 ∧ flags_violation 450 = false
    ∧ teachersAgg c8_demand4 "王五" = 500 ∧ gap_of 500 = 20 ∧ flags_violation 500 = true := by
  refine ⟨?_, ?_, by decide, ?_, by decide, by decide, by decide, by decide, by decide,
    by decide⟩
  · intro courses s
    simpa [teachersAgg] using teachersAgg_loop courses (fun _ => 0) s
  · intro courses cls
    simpa [classesAgg] using classesAgg_loop courses (fun _ => 0) cls
  · intro d
    simp only [flags_violation, gap_of, total_available_slots, TIMES_length,
      Bool.not_eq_true', decide_eq_false_iff_not, not_le]
    omega

/-- C10: when `、` occurs in the trimmed field, splitting happens only
on `、` — a `,` in the same field stays inside the resulting class name
— and fragments that are empty or whitespace-only after trimming are
discarded. -/
theorem C10_delimiter_priority :
    splitClasses "CS101,CS102、CS103".toList = ["CS101,CS102".toList, "CS103".toList]
    ∧ splitClasses "CS101、 、CS102".toList = ["CS101".toList, "CS102".toList]
    ∧ (∀ raw : List Char, (trimChars raw).contains '、' = true →
        (splitClasses raw
          = ((splitOnChar '、' (trimChars raw)).map trimChars).filter (fun c => c ≠ [])
         ∧ ∀ c ∈ splitClasses raw, c ≠ [])) := by
  refine ⟨by decide, by decide, ?_⟩
  intro raw h1
  have h1m : '、' ∈ trimChars raw := by simpa using h1
  have heq : splitClasses raw
      = ((splitOnChar '、' (trimChars raw)).map trimChars).filter (fun c => c ≠ []) := by
    simp [splitClasses, h1m]
  refine ⟨heq, ?_⟩
  intro c hm
  rw [heq] at hm
  have h := List.mem_filter.mp hm
  simpa using h.2

/-- C10 witness: the `、`-priority branch applied to a field that also
contains a comma. -/
theorem C10_delimiter_priority_witness :
    (trimChars "A,B、C".toList).contains '、' = true
    ∧ (splitClasses "A,B、C".toList
        = ((splitOnChar '、' (trimChars "A,B、C".toList)).map trimChars).filter
            (fun c => c ≠ [])
      ∧ ∀ c ∈ splitClasses "A,B、C".toList, c ≠ []) :=
  ⟨by decide, C10_delimiter_priority.2.2 "A,B、C".toList (by decide)⟩

/-- C8 witness: the teacher-aggregation formula applied to the concrete
three-course demand set. -/
theorem C8_gap_analysis_witness :
    teachersAgg c8_demand3 "王五"
      = ((c8_demand3.filter (fun c => c.teacher == "王五")).map Course.required_slots).sum :=
  C8_gap_analysis.1 c8_demand3 "王五"
